import Mathlib

/-
Verification of the laminator oriented-sliding-window analysis
(src/laminator_analysis/laminator.py and the nuclei radial-profiling
scripts).  Numpy arrays are embedded as dimension-carrying functions,
python integers as Int, and pixel intensities as Rat.  Python slice
semantics (clipping at the array bounds, wrap-around of negative
indices) are modeled explicitly.
-/

set_option maxRecDepth 8000

namespace Laminator

/-- Effective bound of a python slice endpoint i for an axis of length n:
negative values count from the end and everything is clamped to [0, n]. -/
def pyStart (i n : ℤ) : ℤ := if i < 0 then max (n + i) 0 else min i n

/-- Number of elements selected by the python slice a[start:stop] on an
axis of length n. -/
def pySliceLen (start stop n : ℤ) : ℤ := max (pyStart stop n - pyStart start n) 0

/-- Global indices selected by the python slice a[start:stop] on an axis
of length n, in order. -/
def pyIdxList (start stop n : ℤ) : List ℤ :=
  (List.range (pySliceLen start stop n).toNat).map (fun t => pyStart start n + (t : ℤ))

/-- A 2-D numpy array: height, width and a total lookup function. -/
structure Arr2 where
  h : ℤ
  w : ℤ
  val : ℤ → ℤ → ℚ

/-- A 3-D numpy array (height, width, channel). -/
structure Arr3 where
  h : ℤ
  w : ℤ
  c : ℤ
  val : ℤ → ℤ → ℤ → ℚ

/-- np.zeros([h, w]). -/
def np_zeros2 (h w : ℤ) : Arr2 := ⟨h, w, fun _ _ => 0⟩

/-- np.zeros([h, w, c]). -/
def np_zeros3 (h w c : ℤ) : Arr3 := ⟨h, w, c, fun _ _ _ => 0⟩

/-- The 2-D python slice a[r0:r1, c0:c1]. -/
def pySlice2 (a : Arr2) (r0 r1 c0 c1 : ℤ) : Arr2 :=
  ⟨pySliceLen r0 r1 a.h, pySliceLen c0 c1 a.w,
   fun i j => a.val (pyStart r0 a.h + i) (pyStart c0 a.w + j)⟩

/-- The 3-D python slice a[r0:r1, c0:c1, ...] (channels untouched). -/
def pySlice3 (a : Arr3) (r0 r1 c0 c1 : ℤ) : Arr3 :=
  ⟨pySliceLen r0 r1 a.h, pySliceLen c0 c1 a.w, a.c,
   fun i j k => a.val (pyStart r0 a.h + i) (pyStart c0 a.w + j) k⟩

/-- The numpy slice assignment a[r0:r0+b.h, c0:c0+b.w] = b (as used in
the source with nonnegative in-bounds offsets). -/
def setSlice2 (a : Arr2) (r0 c0 : ℤ) (b : Arr2) : Arr2 :=
  ⟨a.h, a.w, fun i j =>
    if r0 ≤ i ∧ i < r0 + b.h ∧ c0 ≤ j ∧ j < c0 + b.w then b.val (i - r0) (j - c0)
    else a.val i j⟩

/-- The numpy slice assignment a[r0:r0+b.h, c0:c0+b.w, ...] = b. -/
def setSlice3 (a : Arr3) (r0 c0 : ℤ) (b : Arr3) : Arr3 :=
  ⟨a.h, a.w, a.c, fun i j k =>
    if r0 ≤ i ∧ i < r0 + b.h ∧ c0 ≤ j ∧ j < c0 + b.w then b.val (i - r0) (j - c0) k
    else a.val i j k⟩

/-- np.where(v < 0, np.absolute(v), 0), the offset formula of get_angle
(laminator.py lines 156-160) and of radial_profile_multi. -/
def np_where_neg_abs (v : ℤ) : ℤ := if v < 0 then |v| else 0

/-- x_offset as computed in get_angle: x_offset = x - window_size, then
np.where(x_offset < 0, np.absolute(x_offset), 0). -/
def get_angle_x_offset (x window_size : ℤ) : ℤ := np_where_neg_abs (x - window_size)

/-- y_offset as computed in get_angle. -/
def get_angle_y_offset (y window_size : ℤ) : ℤ := np_where_neg_abs (y - window_size)

/-- The crop of get_angle (laminator.py line 163):
distance_transform[y - window_size + y_offset : y + window_size,
x - window_size + x_offset : x + window_size]. -/
def get_angle_cropped (dt : Arr2) (x y window_size : ℤ) : Arr2 :=
  pySlice2 dt (y - window_size + get_angle_y_offset y window_size) (y + window_size)
              (x - window_size + get_angle_x_offset x window_size) (x + window_size)

/-- The zero-padded buffer of get_angle (laminator.py lines 165-166):
padded = np.zeros([2*window_size, 2*window_size]);
padded[y_offset : cropped.shape[0]+y_offset, x_offset : cropped.shape[1]+x_offset] = cropped. -/
def get_angle_padded (dt : Arr2) (x y window_size : ℤ) : Arr2 :=
  setSlice2 (np_zeros2 (2 * window_size) (2 * window_size))
    (get_angle_y_offset y window_size) (get_angle_x_offset x window_size)
    (get_angle_cropped dt x y window_size)

/-- The crop of rotate_slice (laminator.py line 277), with the offsets
taken from the Angle Record rather than recomputed:
stack[y - window_size + y_offset : y + window_size,
x - window_size + x_offset : x + window_size, ...]. -/
def rotate_slice_cropped (stack : Arr3) (x y x_offset y_offset window_size : ℤ) : Arr3 :=
  pySlice3 stack (y - window_size + y_offset) (y + window_size)
                 (x - window_size + x_offset) (x + window_size)

/-- Python3 round and numpy rint: round half to even. -/
def pyRound (q : ℚ) : ℤ :=
  if q - ⌊q⌋ < 1 / 2 then ⌊q⌋
  else if 1 / 2 < q - ⌊q⌋ then ⌊q⌋ + 1
  else if ⌊q⌋ % 2 = 0 then ⌊q⌋ else ⌊q⌋ + 1

/-- contour.round().astype(int) applied to one (row, col) coordinate. -/
def roundPoint (p : ℚ × ℚ) : ℤ × ℤ := (pyRound p.1, pyRound p.2)

/-- pandas drop_duplicates on the rounded coordinates of one contour,
keeping the first occurrence of each value and, crucially, keeping the
original row index of every retained row (drop_duplicates does not
reset the index, and get_contour then assigns position = df_tmp.index). -/
def dropDupIdx : List (ℤ × ℤ) → ℕ → List (ℤ × ℤ) → List (ℕ × (ℤ × ℤ))
  | [], _, _ => []
  | v :: rest, i, seen =>
    if v ∈ seen then dropDupIdx rest (i + 1) seen
    else (i, v) :: dropDupIdx rest (i + 1) (v :: seen)

/-- One row of the contour table of get_contour: columns y, x (renamed
from 0, 1), contour and position. -/
structure ContourPoint where
  y : ℤ
  x : ℤ
  contour : ℕ
  position : ℕ
deriving DecidableEq

/-- The rows contributed by one traced contour with id i:
pd.DataFrame(results[i]).assign(contour=i).drop_duplicates() followed by
df_tmp[position] = df_tmp.index. -/
def contourRows (c : List (ℚ × ℚ)) (i : ℕ) : List ContourPoint :=
  (dropDupIdx (c.map roundPoint) 0 []).map (fun e => ⟨e.2.1, e.2.2, i, e.1⟩)

/-- The concatenation loop of get_contour over all traced contours. -/
def buildRows : List (List (ℚ × ℚ)) → ℕ → List ContourPoint
  | [], _ => []
  | c :: rest, i => contourRows c i ++ buildRows rest (i + 1)

/-- get_contour (laminator.py lines 89-101), taking as input the list of
floating-point contours returned by skimage.measure.find_contours (an
external library call).  When that list is empty the final
pd.concat(df) receives an empty list of frames and raises ValueError;
the raise is modeled as none. -/
def get_contour (contours : List (List (ℚ × ℚ))) : Option (List ContourPoint) :=
  if contours.isEmpty then none else some (buildRows contours 0)

/-- Sum of f over the integers 0, ..., n-1. -/
def iSum (n : ℤ) (f : ℤ → ℚ) : ℚ := ((List.range n.toNat).map (fun t => f (t : ℤ))).sum

/-- Sum of all entries of a 2-D array, as in ndarray.sum(). -/
def arr2_sum (a : Arr2) : ℚ := iSum a.h (fun i => iSum a.w (fun j => a.val i j))

/-- assess_rotation (laminator.py lines 104-120), with the skimage
rotation passed in as an abstract shape-preserving function rot:
range_y = round(window_size / scale[0]) + window_size,
range_x = round(slice_width / scale[1]), and the score is
-(rotate(img, angle)[window_size:range_y,
window_size-range_x:window_size+range_x].sum()). -/
def assess_rotation (rot : Arr2 → ℚ → Arr2) (angle : ℚ) (img : Arr2)
    (window_size slice_width s0 s1 : ℤ) : ℚ :=
  let range_y := pyRound ((window_size : ℚ) / (s0 : ℚ)) + window_size
  let range_x := pyRound ((slice_width : ℚ) / (s1 : ℚ))
  let rotated_img := rot img angle
  arr2_sum (pySlice2 rotated_img window_size range_y
      (window_size - range_x) (window_size + range_x)) * (-1)

/-- The score as the claim words it: the same column range but rows
from window_size up to window_size + round(window_size/scale_y) +
window_size.  Written only to compare with assess_rotation. -/
def assess_rotation_claim_score (rot : Arr2 → ℚ → Arr2) (angle : ℚ) (img : Arr2)
    (window_size slice_width s0 s1 : ℤ) : ℚ :=
  let range_x := pyRound ((slice_width : ℚ) / (s1 : ℚ))
  let rotated_img := rot img angle
  arr2_sum (pySlice2 rotated_img window_size
      (window_size + pyRound ((window_size : ℚ) / (s0 : ℚ)) + window_size)
      (window_size - range_x) (window_size + range_x)) * (-1)

/-- Sum of the values of a over the rectangle with rows [r0, r1) and
columns [c0, c1). -/
def rectSum (a : Arr2) (r0 r1 c0 c1 : ℤ) : ℚ :=
  iSum (r1 - r0) (fun i => iSum (c1 - c0) (fun j => a.val (r0 + i) (c0 + j)))

/-- The identity in place of the skimage rotation (rotation by zero
leaves a float image unchanged). -/
def rotId2 : Arr2 → ℚ → Arr2 := fun a _ => a

/-- A 4x4 all-ones padded buffer, matching window_size 2. -/
def ones4 : Arr2 := ⟨4, 4, fun _ _ => 1⟩

/-- Floor of the euclidean distance of pixel (i, j) from the center
(cy, cx): r = np.sqrt((x - center[1])**2 + (y - center[0])**2)
followed by astype(int). -/
def r_value (cy cx i j : ℤ) : ℕ := Nat.sqrt (((j - cx) ^ 2 + (i - cy) ^ 2).toNat)

/-- The combined mask of radial_profile_multi
(01_laminator_process_nuclei_dataset.py lines 99-111, identically
02_..._mtu.py lines 107-119) at global pixel (i, j):
mask * np.where(r <= max_radius, 1, 0) *
np.where(label_img == nucleus_id, 0, 1) with
nucleus_id = label_img[int(center[0]), int(center[1])]. -/
def nucleus_mask_val (mask label_img : ℤ → ℤ → ℤ) (max_radius cy cx i j : ℤ) : ℤ :=
  mask i j * (if (r_value cy cx i j : ℤ) ≤ max_radius then 1 else 0) *
    (if label_img i j = label_img cy cx then 0 else 1)

/-- Global coordinates of the cropped pixels that survive
np.delete(..., np.where(mask == 0)) in radial_profile_multi: the
per-radius bincount averaging sums exactly over these pixels in every
channel.  The crop bounds follow the same offset scheme as get_angle. -/
def radial_profile_kept (mask label_img : ℤ → ℤ → ℤ) (max_radius cy cx H W : ℤ) :
    List (ℤ × ℤ) :=
  ((pyIdxList (cy - max_radius + np_where_neg_abs (cy - max_radius)) (cy + max_radius) H).flatMap
    (fun i =>
      (pyIdxList (cx - max_radius + np_where_neg_abs (cx - max_radius)) (cx + max_radius) W).map
        (fun j => (i, j)))).filter
    (fun p => decide (nucleus_mask_val mask label_img max_radius cy cx p.1 p.2 ≠ 0))

/-- Average over axis 1 (the width axis) of a 3-D array, as in
np.average(a, axis=1): output shape (h, c). -/
def np_average_axis1 (a : Arr3) : Arr2 :=
  ⟨a.h, a.c, fun i k => iSum a.w (fun j => a.val i j k) / (a.w : ℚ)⟩

/-- rotate_slice (laminator.py lines 260-286), with the skimage
rotation as an abstract function rot: crop the shared stack using the
stored offsets, pad into a zero buffer of shape (2*window_size,
2*window_size, channels), rotate, take rows [window_size:] and columns
[window_size - slice_width : window_size + slice_width], and average
across the width axis. -/
def rotate_slice (rot : Arr3 → ℚ → Arr3) (stack : Arr3) (angle : ℚ)
    (x y x_offset y_offset window_size slice_width : ℤ) : Arr2 :=
  let stack_cropped := rotate_slice_cropped stack x y x_offset y_offset window_size
  let stack_padded := setSlice3 (np_zeros3 (2 * window_size) (2 * window_size) stack.c)
      y_offset x_offset stack_cropped
  let r := rot stack_padded angle
  let stack_rotated := pySlice3 r window_size r.h
      (window_size - slice_width) (window_size + slice_width)
  np_average_axis1 stack_rotated

/-- One Angle Record row as consumed by rotate_slices. -/
structure AngleRecord where
  angle : ℚ
  x : ℤ
  y : ℤ
  x_offset : ℤ
  y_offset : ℤ
  window_size : ℤ
  slice_width : ℤ

/-- np.dstack of a list of equally shaped 2-D arrays, of shape
(h, w, N). -/
def np_dstack (l : List Arr2) : Arr3 :=
  match l with
  | [] => ⟨0, 0, 0, fun _ _ _ => 0⟩
  | a :: _ => ⟨a.h, a.w, (l.length : ℤ), fun i j k => (l.getD k.toNat a).val i j⟩

/-- One row of the Intensity Profile table:
(radial_position, stain, window, intensity). -/
abbrev ProfileRow := ℕ × ℕ × ℕ × ℚ

/-- pd.MultiIndex.from_product over the shape of the dstacked results
with names [radial_position, stain, window], paired with the flattened
intensities (laminator.py lines 324-327). -/
def from_product_table (a : Arr3) : List ProfileRow :=
  (List.range a.h.toNat).flatMap (fun i =>
    (List.range a.w.toNat).flatMap (fun j =>
      (List.range a.c.toNat).map (fun k => (i, j, k, a.val i j k))))

/-- rotate_slices (laminator.py lines 301-329): map rotate_slice over
the Angle Records, dstack the per-record profiles and lay the result
out as one row per (radial_position, stain, window). -/
def rotate_slices (rot : Arr3 → ℚ → Arr3) (stack : Arr3) (df : List AngleRecord) :
    List ProfileRow :=
  from_product_table (np_dstack (df.map (fun r =>
    rotate_slice rot stack r.angle r.x r.y r.x_offset r.y_offset r.window_size
      r.slice_width)))

/-- The identity in place of the skimage 3-D rotation. -/
def rotId3 : Arr3 → ℚ → Arr3 := fun a _ => a

/-- A concrete Angle Record with window_size 1 for the witness run. -/
def recW : AngleRecord := ⟨0, 0, 0, 0, 0, 1, 1⟩

/-- Two identical Angle Records sharing window_size 1. -/
def dfW : List AngleRecord := [recW, recW]

/-- An all-ones tissue mask used as a witness input. -/
def maskW : ℤ → ℤ → ℤ := fun _ _ => 1

/-- A label image with a single nucleus labeled 5 at pixel (1, 1). -/
def labelW : ℤ → ℤ → ℤ := fun i j => if i = 1 ∧ j = 1 then 5 else 0

/-- Ascending insertion of one value into a sorted list. -/
def insertAsc (x : ℚ) : List ℚ → List ℚ
  | [] => [x]
  | y :: ys => if x ≤ y then x :: y :: ys else y :: insertAsc x ys

/-- Ascending sort, modeling the sort of the flattened array inside
np.percentile. -/
def sortAsc (xs : List ℚ) : List ℚ := xs.foldr insertAsc []

/-- np.percentile(xs, q) with the default linear interpolation method:
the value at fractional position q/100*(n-1) between the sorted order
statistics. -/
def np_percentile (q : ℚ) (xs : List ℚ) : ℚ :=
  let s := sortAsc xs
  if s.length = 0 then 0
  else
    let pos : ℚ := q / 100 * ((s.length : ℚ) - 1)
    let i : ℕ := (⌊pos⌋).toNat
    let a := s.getD i 0
    let b := s.getD (i + 1) a
    a + (pos - ⌊pos⌋) * (b - a)

/-- np.interp(x, (lo, hi), (0, 65535)) for one value x, following the
branch order of the numpy implementation: the right boundary test comes
first, then the left one, then the bracketing interval. -/
def np_interp2 (x lo hi : ℚ) : ℚ :=
  if hi < x then 65535
  else if x < lo then 0
  else if hi ≤ x then 65535
  else if x = lo then 0
  else 65535 * (x - lo) / (hi - lo)

/-- scale_image (laminator.py lines 17-19) on the values of an array:
np.interp(image, (np.percentile(image, percentile),
np.percentile(image, 100 - percentile)), (0, +65535)). -/
def scale_image (xs : List ℚ) (percentile : ℚ) : List ℚ :=
  xs.map (fun v =>
    np_interp2 v (np_percentile percentile xs) (np_percentile (100 - percentile) xs))

/-- Flattened value list of a stack given as nested lists with axes
(height, width, channel). -/
def stack_flatten (imgs : List (List (List ℚ))) : List ℚ :=
  imgs.flatMap (fun row => row.flatMap (fun px => px))

/-- prepare_images with scale=True (laminator.py lines 64-65).  The call
np.apply_over_axes(scale_image, imgs, 2) evaluates scale_image(imgs, 2):
the whole 3-D stack is the image argument and the axis number 2 becomes
the percentile argument, so all channels are rescaled jointly by the
global 2nd and 98th percentile of the full stack, and the percentile
parameter of prepare_images is never forwarded. -/
def prepare_images (imgs : List (List (List ℚ))) (percentile : ℚ) : List (List (List ℚ)) :=
  let lo := np_percentile 2 (stack_flatten imgs)
  let hi := np_percentile (100 - 2) (stack_flatten imgs)
  imgs.map (fun row => row.map (fun px => px.map (fun v => np_interp2 v lo hi)))

/-- Values of one channel of the stack. -/
def channel_values (imgs : List (List (List ℚ))) (c : ℕ) : List ℚ :=
  imgs.flatMap (fun row => row.map (fun px => px.getD c 0))

/-- Specification-side definition (section 4.1 of the spec, quoted by
the claim): every channel rescaled independently using its own p-th and
(100-p)-th percentiles.  Written only to compare with prepare_images. -/
def prepare_images_spec_per_channel (imgs : List (List (List ℚ))) (p : ℚ) :
    List (List (List ℚ)) :=
  imgs.map (fun row => row.map (fun px =>
    (List.range px.length).map (fun c =>
      np_interp2 (px.getD c 0) (np_percentile p (channel_values imgs c))
        (np_percentile (100 - p) (channel_values imgs c)))))

/-- A stack with one row, two columns and two channels whose channels
have disjoint intensity ranges. -/
def stackX : List (List (List ℚ)) := [[[0, 1000], [100, 2000]]]

/-- A traced contour whose first two points round to the same integer
pixel: the duplicate is dropped mid-path. -/
def cX : List (List (ℚ × ℚ)) := [[(0, 0), (0, 0), (1, 0)]]

/-- The contour table get_contour produces on cX: the second retained
point carries position 2 (its pre-deduplication index), not 1. -/
def rowsX : List ContourPoint := [⟨0, 0, 0, 0⟩, ⟨1, 0, 0, 2⟩]

/-- A concrete 3x3 distance field used as a witness input. -/
def dtX : Arr2 := ⟨3, 3, fun _ _ => 0⟩

/-- A concrete 3x3x1 image stack used as a witness input. -/
def stX : Arr3 := ⟨3, 3, 1, fun _ _ _ => 0⟩

end Laminator

namespace Laminator

/-- The offset formula as a max, convenient for linear arithmetic. -/
theorem np_where_neg_abs_eq (v : ℤ) : np_where_neg_abs v = max (-v) 0 := by
  simp only [np_where_neg_abs]
  split_ifs with h
  · rw [abs_of_neg h]; omega
  · omega

/-- C1: reusing the stored offsets of an Angle Record, the crop taken by
rotate_slice over a stack with the same height and width as the distance
field has exactly the height and width of the crop taken by get_angle. -/
theorem crop_round_trip_shape (x y window_size : ℤ) (stack : Arr3) (dt : Arr2)
    (hH : stack.h = dt.h) (hW : stack.w = dt.w) :
    (rotate_slice_cropped stack x y (get_angle_x_offset x window_size)
        (get_angle_y_offset y window_size) window_size).h =
      (get_angle_cropped dt x y window_size).h ∧
    (rotate_slice_cropped stack x y (get_angle_x_offset x window_size)
        (get_angle_y_offset y window_size) window_size).w =
      (get_angle_cropped dt x y window_size).w := by
  constructor <;>
    simp [rotate_slice_cropped, get_angle_cropped, pySlice3, pySlice2, hH, hW]

/-- Witness for crop_round_trip_shape at a concrete point and field. -/
theorem crop_round_trip_shape_witness :
    stX.h = dtX.h ∧
    ((rotate_slice_cropped stX 0 0 (get_angle_x_offset 0 2)
        (get_angle_y_offset 0 2) 2).h = (get_angle_cropped dtX 0 0 2).h ∧
     (rotate_slice_cropped stX 0 0 (get_angle_x_offset 0 2)
        (get_angle_y_offset 0 2) 2).w = (get_angle_cropped dtX 0 0 2).w) :=
  ⟨rfl, crop_round_trip_shape 0 0 2 stX dtX rfl rfl⟩

/-- C2: for a contour point inside the distance field and
0 < slice_width ≤ window_size, the padded buffer built by get_angle has
shape exactly (2*window_size, 2*window_size) and the in-bounds crop,
placed at (y_offset, x_offset), fits inside it. -/
theorem get_angle_padded_shape (dt : Arr2) (x y window_size slice_width : ℤ)
    (hx0 : 0 ≤ x) (hxW : x < dt.w) (hy0 : 0 ≤ y) (hyH : y < dt.h)
    (hws : 0 < window_size) (hsw : 0 < slice_width) (hswle : slice_width ≤ window_size) :
    (get_angle_padded dt x y window_size).h = 2 * window_size ∧
    (get_angle_padded dt x y window_size).w = 2 * window_size ∧
    get_angle_y_offset y window_size + (get_angle_cropped dt x y window_size).h
      ≤ 2 * window_size ∧
    get_angle_x_offset x window_size + (get_angle_cropped dt x y window_size).w
      ≤ 2 * window_size := by
  refine ⟨rfl, rfl, ?_, ?_⟩ <;>
  · simp only [get_angle_cropped, pySlice2, get_angle_y_offset, get_angle_x_offset,
      np_where_neg_abs_eq, pySliceLen, pyStart]
    split_ifs <;> omega

/-- Witness for get_angle_padded_shape at a point next to the low edges. -/
theorem get_angle_padded_shape_witness :
    (0 : ℤ) < 2 ∧
    ((get_angle_padded dtX 0 1 2).h = 2 * 2 ∧
     (get_angle_padded dtX 0 1 2).w = 2 * 2 ∧
     get_angle_y_offset 1 2 + (get_angle_cropped dtX 0 1 2).h ≤ 2 * 2 ∧
     get_angle_x_offset 0 2 + (get_angle_cropped dtX 0 1 2).w ≤ 2 * 2) :=
  ⟨by decide,
   get_angle_padded_shape dtX 0 1 2 1 (by decide) (by decide) (by decide) (by decide)
     (by decide) (by decide) (by decide)⟩

/-- C3: for a fully interior point both offsets computed by get_angle are
zero, and for x = 0 with window_size = 50 the x offset is exactly 50. -/
theorem get_angle_offset_correct (x y window_size W H : ℤ) :
    (window_size ≤ x → window_size ≤ y → x + window_size ≤ W → y + window_size ≤ H →
      get_angle_x_offset x window_size = 0 ∧ get_angle_y_offset y window_size = 0) ∧
    get_angle_x_offset 0 50 = 50 := by
  constructor
  · intro h1 h2 _ _
    constructor <;>
    · simp only [get_angle_x_offset, get_angle_y_offset, np_where_neg_abs]
      split_ifs <;> omega
  · decide

/-- Witness for get_angle_offset_correct at an interior point. -/
theorem get_angle_offset_correct_witness :
    (50 : ℤ) ≤ 60 ∧
    (get_angle_x_offset 60 50 = 0 ∧ get_angle_y_offset 70 50 = 0) ∧
    get_angle_x_offset 0 50 = 50 :=
  ⟨by decide,
   (get_angle_offset_correct 60 70 50 200 200).1 (by decide) (by decide) (by decide)
     (by decide),
   (get_angle_offset_correct 60 70 50 200 200).2⟩

/-- Every entry kept by dropDupIdx carries the index of the first
occurrence of its value in the list (offset by the start index n), and
its value is new with respect to seen. -/
theorem mem_dropDupIdx (l : List (ℤ × ℤ)) :
    ∀ (n : ℕ) (seen : List (ℤ × ℤ)) (e : ℕ × (ℤ × ℤ)), e ∈ dropDupIdx l n seen →
      ∃ k, e.1 = n + k ∧ l[k]? = some e.2 ∧ e.2 ∉ seen ∧
        ∀ j < k, l[j]? ≠ some e.2 := by
  induction l with
  | nil => intro n seen e he; simp [dropDupIdx] at he
  | cons v rest ih =>
    intro n seen e he
    simp only [dropDupIdx] at he
    split_ifs at he with hv
    · obtain ⟨k, hk1, hk2, hk3, hk4⟩ := ih (n + 1) seen e he
      refine ⟨k + 1, by omega, by simpa using hk2, hk3, ?_⟩
      intro j hj
      cases j with
      | zero =>
        simp only [List.getElem?_cons_zero, ne_eq, Option.some.injEq]
        intro h; exact hk3 (h ▸ hv)
      | succ j' => simpa using hk4 j' (by omega)
    · rcases List.mem_cons.mp he with h | h
      · subst h
        exact ⟨0, by omega, by simp, hv, by omega⟩
      · obtain ⟨k, hk1, hk2, hk3, hk4⟩ := ih (n + 1) (v :: seen) e h
        have hne : e.2 ≠ v := fun hh => hk3 (by simp [hh])
        refine ⟨k + 1, by omega, by simpa using hk2,
          fun hs => hk3 (List.mem_cons_of_mem _ hs), ?_⟩
        intro j hj
        cases j with
        | zero =>
          simp only [List.getElem?_cons_zero, ne_eq, Option.some.injEq]
          intro h; exact hne h.symm
        | succ j' => simpa using hk4 j' (by omega)

/-- Every row of buildRows comes from the contour with the matching id. -/
theorem mem_buildRows (cs : List (List (ℚ × ℚ))) :
    ∀ (i : ℕ) (r : ContourPoint), r ∈ buildRows cs i →
      ∃ k c, cs[k]? = some c ∧ r.contour = i + k ∧ r ∈ contourRows c (i + k) := by
  induction cs with
  | nil => intro i r hr; simp [buildRows] at hr
  | cons c rest ih =>
    intro i r hr
    simp only [buildRows] at hr
    rcases List.mem_append.mp hr with h | h
    · refine ⟨0, c, by simp, ?_, ?_⟩
      · obtain ⟨e, _, he⟩ := List.mem_map.mp h
        subst he; rfl
      · simpa using h
    · obtain ⟨k, c', h1, h2, h3⟩ := ih (i + 1) r h
      refine ⟨k + 1, c', by simpa using h1, by omega, ?_⟩
      rwa [show i + (k + 1) = (i + 1) + k by omega]

/-- C5 counterexample: on the contour cX the retained positions are
[0, 2], not the gap-free sequence [0, 1]. -/
theorem get_contour_position_counterexample :
    ((get_contour cX).getD []).map ContourPoint.position ≠
      List.range ((get_contour cX).getD []).length := by with_unfolding_all decide

/-- C5 amended: each retained point carries as position its row index
within its contour before deduplication, i.e. the index of the first
occurrence of its rounded coordinate along the traced contour (pandas
drop_duplicates keeps the original index and position is assigned from
that index), so positions may have gaps after dropped duplicates. -/
theorem get_contour_position_first_occurrence :
    ∀ (cs : List (List (ℚ × ℚ))) (rows : List ContourPoint),
      get_contour cs = some rows → ∀ r ∈ rows,
      ∃ c, cs[r.contour]? = some c ∧
        (c.map roundPoint)[r.position]? = some (r.y, r.x) ∧
        ∀ j < r.position, (c.map roundPoint)[j]? ≠ some (r.y, r.x) := by
  intro cs rows hcs r hr
  have hrows : rows = buildRows cs 0 := by
    unfold get_contour at hcs
    split_ifs at hcs
    simp_all
  rw [hrows] at hr
  obtain ⟨k, c, h1, h2, h3⟩ := mem_buildRows cs 0 r hr
  have hk : r.contour = k := by omega
  obtain ⟨e, he1, he2⟩ := List.mem_map.mp h3
  obtain ⟨k', hk1, hk2, hk3, hk4⟩ := mem_dropDupIdx (c.map roundPoint) 0 [] e he1
  have hpos : r.position = e.1 := by rw [← he2]
  have hyx : (r.y, r.x) = e.2 := by rw [← he2]
  refine ⟨c, by rwa [hk], ?_, ?_⟩
  · rw [hpos, hyx, hk1, Nat.zero_add]; exact hk2
  · intro j hj
    rw [hyx]
    exact hk4 j (by omega)

/-- Witness for get_contour_position_first_occurrence: the second
retained point of cX carries position 2, the index of the first
occurrence of its rounded coordinate. -/
theorem get_contour_position_first_occurrence_witness :
    get_contour cX = some rowsX ∧
    (∃ c, cX[(0 : ℕ)]? = some c ∧
      (c.map roundPoint)[(2 : ℕ)]? = some (1, 0) ∧
      ∀ j < 2, (c.map roundPoint)[j]? ≠ some (1, 0)) :=
  ⟨by with_unfolding_all decide,
   get_contour_position_first_occurrence cX rowsX (by with_unfolding_all decide)
     ⟨1, 0, 0, 2⟩ (by decide)⟩

/-- C6 counterexample: on a mask with no traced contours get_contour
does not return an empty table; pd.concat of an empty list of frames
raises (modeled as none). -/
theorem get_contour_empty_counterexample : get_contour [] = none := rfl

/-- C6 amended: get_contour fails (pd.concat raises ValueError, modeled
as none) exactly when the contour tracer finds no contours; it never
returns an empty table in that case. -/
theorem get_contour_none_iff_empty (cs : List (List (ℚ × ℚ))) :
    get_contour cs = none ↔ cs = [] := by
  cases cs <;> simp [get_contour]

/-- C7: on a concrete stack, prepare_images with the caller percentile 1
does not rescale channels independently with that percentile; moreover
its output does not depend on the percentile argument at all, because
np.apply_over_axes passes the axis number 2 in its place. -/
theorem prepare_images_global_not_per_channel :
    prepare_images stackX 1 ≠ prepare_images_spec_per_channel stackX 1 ∧
    prepare_images stackX 1 = prepare_images stackX 99 := by
  constructor
  · norm_num [prepare_images, prepare_images_spec_per_channel, stackX, stack_flatten,
      channel_values, np_percentile, sortAsc, insertAsc, np_interp2, List.getD,
      List.range_succ]
    all_goals try simp
    all_goals try norm_num [Int.fract]
  · rfl

/-- C10 counterexample: on a constant array the two percentiles
coincide and np.interp sends every value, including those at or below
the low percentile, to 65535 rather than 0. -/
theorem scale_image_degenerate_counterexample :
    np_percentile 1 [(5 : ℚ), 5] = 5 ∧ scale_image [(5 : ℚ), 5] 1 = [65535, 65535] ∧
    (65535 : ℚ) ≠ 0 := by
  norm_num [scale_image, np_percentile, sortAsc, insertAsc, np_interp2]

/-- Behavior of the two-point np.interp on a proper bracket: output is
clipped into [0, 65535], with values at or below lo mapped to 0 and
values at or above hi mapped to 65535. -/
theorem np_interp2_spec (x lo hi : ℚ) (h : lo < hi) :
    (0 ≤ np_interp2 x lo hi ∧ np_interp2 x lo hi ≤ 65535) ∧
    (x ≤ lo → np_interp2 x lo hi = 0) ∧ (hi ≤ x → np_interp2 x lo hi = 65535) := by
  unfold np_interp2
  split_ifs with h1 h2 h3 h4
  · exact ⟨⟨by norm_num, le_refl _⟩, fun hx => absurd hx (by linarith), fun _ => rfl⟩
  · exact ⟨⟨le_refl _, by norm_num⟩, fun _ => rfl, fun hx => absurd hx (by linarith)⟩
  · exact ⟨⟨by norm_num, le_refl _⟩, fun hx => absurd hx (by linarith), fun _ => rfl⟩
  · exact ⟨⟨le_refl _, by norm_num⟩, fun _ => rfl, fun hx => absurd hx (by linarith)⟩
  · have hlo : lo < x := lt_of_le_of_ne (not_lt.mp h2) (fun hh => h4 hh.symm)
    have hhi : x < hi := not_le.mp h3
    have hd : (0 : ℚ) < hi - lo := by linarith
    refine ⟨⟨?_, ?_⟩, fun hx => absurd hx (by linarith), fun hx => absurd hx (by linarith)⟩
    · exact div_nonneg (by nlinarith) hd.le
    · rw [div_le_iff₀ hd]; nlinarith

/-- C10 amended: provided the low percentile is strictly below the high
percentile, every output of scale_image lies in [0, 65535]; inputs at
or below the low percentile map exactly to 0 and inputs at or above the
high percentile map exactly to 65535 (clipping, no extrapolation).
When the two percentiles coincide, every value at or above them maps to
65535 instead. -/
theorem scale_image_clip_bounds (xs : List ℚ) (p : ℚ)
    (h : np_percentile p xs < np_percentile (100 - p) xs) :
    (∀ v ∈ scale_image xs p, 0 ≤ v ∧ v ≤ 65535) ∧
    ∀ x ∈ xs,
      (x ≤ np_percentile p xs →
        np_interp2 x (np_percentile p xs) (np_percentile (100 - p) xs) = 0) ∧
      (np_percentile (100 - p) xs ≤ x →
        np_interp2 x (np_percentile p xs) (np_percentile (100 - p) xs) = 65535) := by
  constructor
  · intro v hv
    obtain ⟨x, _, hxv⟩ := List.mem_map.mp hv
    exact hxv ▸ (np_interp2_spec x _ _ h).1
  · intro x _
    exact (np_interp2_spec x _ _ h).2

/-- Witness for scale_image_clip_bounds on the array [0, 100] with
percentile 1. -/
theorem scale_image_clip_bounds_witness :
    np_percentile 1 [(0 : ℚ), 100] < np_percentile (100 - 1) [(0 : ℚ), 100] ∧
    ∀ v ∈ scale_image [(0 : ℚ), 100] 1, 0 ≤ v ∧ v ≤ 65535 :=
  ⟨by norm_num [np_percentile, sortAsc, insertAsc],
   (scale_image_clip_bounds [0, 100] 1 (by norm_num [np_percentile, sortAsc, insertAsc])).1⟩

/-- pyRound never rounds down past the fractional part. -/
theorem pyRound_nonneg (q : ℚ) (h : 0 ≤ q) : 0 ≤ pyRound q := by
  unfold pyRound
  have h0 : (0 : ℤ) ≤ ⌊q⌋ := Int.floor_nonneg.mpr h
  split_ifs <;> omega

/-- pyRound exceeds its argument by at most one half. -/
theorem pyRound_le_add_half (q : ℚ) : (pyRound q : ℚ) ≤ q + 1 / 2 := by
  unfold pyRound
  have h1 : (⌊q⌋ : ℚ) ≤ q := Int.floor_le q
  have h2 : q < ⌊q⌋ + 1 := Int.lt_floor_add_one q
  split_ifs <;> push_cast <;> linarith

/-- C8 counterexample: with the identity rotation on a 4x4 all-ones
buffer with window_size = slice_width = 2, the code sums an empty row
band (score 0) while the rectangle written in the claim sums the whole
lower half band (score -4). -/
theorem assess_rotation_counterexample :
    assess_rotation rotId2 0 ones4 2 2 10 2 ≠
      assess_rotation_claim_score rotId2 0 ones4 2 2 10 2 := by
  norm_num [assess_rotation, assess_rotation_claim_score, rotId2, ones4, arr2_sum,
    iSum, pySlice2, pySliceLen, pyStart, pyRound, Int.fract, List.range_succ]
  all_goals simp [List.range_succ]

/-- C8 amended: assess_rotation returns the negative of the sum of the
rotated buffer over the sub-rectangle with rows [window_size,
round(window_size/scale_y) + window_size) and columns
[window_size - round(slice_width/scale_x),
window_size + round(slice_width/scale_x)), with the default constants
scale_y = 10 and scale_x = 2 (the row band stops at range_y =
round(window_size/10) + window_size; it does not extend a further
window_size). -/
theorem assess_rotation_rectangle (rot : Arr2 → ℚ → Arr2)
    (hrot : ∀ a θ, (rot a θ).h = a.h ∧ (rot a θ).w = a.w)
    (angle : ℚ) (img : Arr2) (window_size slice_width : ℤ)
    (hh : img.h = 2 * window_size) (hw : img.w = 2 * window_size)
    (hws : 0 < window_size) (hsw : 0 < slice_width)
    (hswle : slice_width ≤ window_size) :
    assess_rotation rot angle img window_size slice_width 10 2 =
      -(rectSum (rot img angle) window_size
          (pyRound ((window_size : ℚ) / 10) + window_size)
          (window_size - pyRound ((slice_width : ℚ) / 2))
          (window_size + pyRound ((slice_width : ℚ) / 2))) := by
  have h1 : (rot img angle).h = 2 * window_size := (hrot img angle).1.trans hh
  have h2 : (rot img angle).w = 2 * window_size := (hrot img angle).2.trans hw
  have hwsq : (0 : ℚ) < (window_size : ℚ) := by exact_mod_cast hws
  have hwsq1 : (1 : ℚ) ≤ (window_size : ℚ) := by exact_mod_cast hws
  have hswq1 : (1 : ℚ) ≤ (slice_width : ℚ) := by exact_mod_cast hsw
  have hswleq : (slice_width : ℚ) ≤ (window_size : ℚ) := by exact_mod_cast hswle
  have hry0 : 0 ≤ pyRound ((window_size : ℚ) / 10) :=
    pyRound_nonneg _ (by positivity)
  have hry_le : pyRound ((window_size : ℚ) / 10) ≤ window_size := by
    have hb := pyRound_le_add_half ((window_size : ℚ) / 10)
    have : (pyRound ((window_size : ℚ) / 10) : ℚ) ≤ (window_size : ℚ) := by linarith
    exact_mod_cast this
  have hrx0 : 0 ≤ pyRound ((slice_width : ℚ) / 2) :=
    pyRound_nonneg _ (by positivity)
  have hrx_le : pyRound ((slice_width : ℚ) / 2) ≤ window_size := by
    have hb := pyRound_le_add_half ((slice_width : ℚ) / 2)
    have : (pyRound ((slice_width : ℚ) / 2) : ℚ) ≤ (window_size : ℚ) := by linarith
    exact_mod_cast this
  simp only [assess_rotation, assess_rotation_claim_score, rectSum, arr2_sum, pySlice2,
    h1, h2, mul_neg_one, Int.cast_ofNat]
  simp only [show
      pySliceLen window_size (pyRound ((window_size : ℚ) / 10) + window_size)
        (2 * window_size) = pyRound ((window_size : ℚ) / 10) from by
      unfold pySliceLen pyStart; split_ifs <;> omega,
    show
      pySliceLen (window_size - pyRound ((slice_width : ℚ) / 2))
        (window_size + pyRound ((slice_width : ℚ) / 2)) (2 * window_size) =
        2 * pyRound ((slice_width : ℚ) / 2) from by
      unfold pySliceLen pyStart; split_ifs <;> omega,
    show pyStart window_size (2 * window_size) = window_size from by
      unfold pyStart; split_ifs <;> omega,
    show
      pyStart (window_size - pyRound ((slice_width : ℚ) / 2)) (2 * window_size) =
        window_size - pyRound ((slice_width : ℚ) / 2) from by
      unfold pyStart; split_ifs <;> omega,
    show
      pyRound ((window_size : ℚ) / 10) + window_size - window_size =
        pyRound ((window_size : ℚ) / 10) from by omega,
    show
      window_size + pyRound ((slice_width : ℚ) / 2) -
        (window_size - pyRound ((slice_width : ℚ) / 2)) =
        2 * pyRound ((slice_width : ℚ) / 2) from by omega]

/-- Witness for assess_rotation_rectangle with the identity rotation on
the all-ones 4x4 buffer. -/
theorem assess_rotation_rectangle_witness :
    ones4.h = 2 * 2 ∧
    assess_rotation rotId2 0 ones4 2 2 10 2 =
      -(rectSum (rotId2 ones4 0) 2 (pyRound ((2 : ℚ) / 10) + 2)
          (2 - pyRound ((2 : ℚ) / 2)) (2 + pyRound ((2 : ℚ) / 2))) :=
  ⟨rfl,
   assess_rotation_rectangle rotId2 (fun _ _ => ⟨rfl, rfl⟩) 0 ones4 2 2 rfl rfl
     (by decide) (by decide) (by decide)⟩

/-- Filtering a mapped range where the predicate never holds yields the
empty list. -/
theorem filter_map_range_eq_nil {α : Type} (g : ℕ → α) (p : α → Bool) :
    ∀ n : ℕ, (∀ k < n, p (g k) = false) → ((List.range n).map g).filter p = [] := by
  intro n
  induction n with
  | zero => intro _; simp
  | succ m ih =>
    intro h
    rw [List.range_succ, List.map_append, List.filter_append,
      ih (fun k hk => h k (by omega))]
    simp [h m (by omega)]

/-- Filtering a mapped range where the predicate holds exactly at w
yields that single element. -/
theorem filter_map_range_eq_singleton {α : Type} (g : ℕ → α) (p : α → Bool) :
    ∀ n w : ℕ, w < n → p (g w) = true → (∀ k < n, k ≠ w → p (g k) = false) →
      ((List.range n).map g).filter p = [g w] := by
  intro n
  induction n with
  | zero => intro w hw _ _; omega
  | succ m ih =>
    intro w hw h1 h0
    rw [List.range_succ, List.map_append, List.filter_append]
    by_cases hwm : w = m
    · subst hwm
      rw [filter_map_range_eq_nil g p w (fun k hk => h0 k (by omega) (by omega))]
      simp [h1]
    · rw [ih w (by omega) h1 (fun k hk hkw => h0 k (by omega) hkw)]
      simp [h0 m (by omega) (fun hh => hwm hh.symm)]

/-- A flatMap over a range whose blocks are all empty is empty. -/
theorem flatMap_range_eq_nil {α : Type} (g : ℕ → List α) :
    ∀ n : ℕ, (∀ k < n, g k = []) → (List.range n).flatMap g = [] := by
  intro n
  induction n with
  | zero => intro _; simp
  | succ m ih =>
    intro h
    rw [List.range_succ, List.flatMap_append, ih (fun k hk => h k (by omega))]
    simp [h m (by omega)]

/-- A flatMap over a range with exactly one nonempty singleton block
yields that singleton. -/
theorem flatMap_range_eq_singleton {α : Type} (g : ℕ → List α) :
    ∀ (n c : ℕ) (x : α), c < n → g c = [x] → (∀ j < n, j ≠ c → g j = []) →
      (List.range n).flatMap g = [x] := by
  intro n
  induction n with
  | zero => intro c x hc _ _; omega
  | succ m ih =>
    intro c x hc h1 h0
    rw [List.range_succ, List.flatMap_append]
    by_cases hcm : c = m
    · subst hcm
      rw [flatMap_range_eq_nil g c (fun k hk => h0 k (by omega) (by omega))]
      simp [h1]
    · rw [ih c x (by omega) h1 (fun j hj hjc => h0 j (by omega) hjc)]
      simp [h0 m (by omega) (fun hh => hcm hh.symm)]

/-- The rows of one radial position block that survive the filter on
(stain = c, window = w) form exactly one row. -/
theorem block_filter (f : ℕ → ℕ → ℕ → ℚ) (s1 s2 c w : ℕ) (hc : c < s1) (hw : w < s2)
    (i : ℕ) :
    ((List.range s1).flatMap (fun j => (List.range s2).map
        (fun k => ((i, j, k, f i j k) : ProfileRow)))).filter
      (fun row => row.2.1 == c && row.2.2.1 == w) = [(i, c, w, f i c w)] := by
  rw [List.filter_flatMap]
  refine flatMap_range_eq_singleton _ s1 c _ hc ?_ ?_
  · refine filter_map_range_eq_singleton _ _ s2 w hw (by simp) ?_
    intro k _ hkw
    simp [hkw]
  · intro j _ hjc
    refine filter_map_range_eq_nil _ _ s2 ?_
    intro k _
    simp [hjc]

/-- The radial positions of the filtered triple product of index ranges
recover the full first range. -/
theorem triple_filter_map (f : ℕ → ℕ → ℕ → ℚ) (s1 s2 c w : ℕ) (hc : c < s1)
    (hw : w < s2) (s0 : ℕ) :
    (((List.range s0).flatMap (fun i => (List.range s1).flatMap (fun j =>
        (List.range s2).map (fun k => ((i, j, k, f i j k) : ProfileRow))))).filter
      (fun row => row.2.1 == c && row.2.2.1 == w)).map (fun row => row.1) =
      List.range s0 := by
  induction s0 with
  | zero => simp
  | succ m ih =>
    rw [List.range_succ, List.flatMap_append, List.filter_append, List.map_append, ih]
    simp only [List.flatMap_cons, List.flatMap_nil, List.append_nil]
    rw [block_filter f s1 s2 c w hc hw m]
    simp

/-- The per-record profile produced by rotate_slice has height
window_size and one column per channel of the shared stack. -/
theorem rotate_slice_shape (rot : Arr3 → ℚ → Arr3)
    (hrot : ∀ a θ, (rot a θ).h = a.h ∧ (rot a θ).w = a.w ∧ (rot a θ).c = a.c)
    (stack : Arr3) (angle : ℚ) (x y xo yo ws sw : ℤ) (h : 0 ≤ ws) :
    (rotate_slice rot stack angle x y xo yo ws sw).h = ws ∧
    (rotate_slice rot stack angle x y xo yo ws sw).w = stack.c := by
  obtain ⟨rh, rw_, rc⟩ := hrot (setSlice3 (np_zeros3 (2 * ws) (2 * ws) stack.c) yo xo
    (rotate_slice_cropped stack x y xo yo ws)) angle
  constructor
  · simp only [rotate_slice, np_average_axis1, pySlice3]
    rw [rh]
    simp only [setSlice3, np_zeros3]
    unfold pySliceLen pyStart
    split_ifs <;> omega
  · simp only [rotate_slice, np_average_axis1, pySlice3]
    rw [rc]
    simp [setSlice3, np_zeros3]

/-- C4: over Angle Records that share one window_size, the profile
table of rotate_slices contains, for every window index and every
channel, exactly the radial positions 0, ..., window_size - 1, in
order, with no gaps and no duplicates. -/
theorem rotate_slices_radial_positions (rot : Arr3 → ℚ → Arr3)
    (hrot : ∀ a θ, (rot a θ).h = a.h ∧ (rot a θ).w = a.w ∧ (rot a θ).c = a.c)
    (stack : Arr3) (df : List AngleRecord) (ws : ℤ) (hws0 : 0 ≤ ws)
    (hws : ∀ r ∈ df, r.window_size = ws) (c w : ℕ)
    (hc : c < stack.c.toNat) (hw : w < df.length) :
    (((rotate_slices rot stack df).filter
        (fun row => row.2.1 == c && row.2.2.1 == w)).map (fun row => row.1)) =
      List.range ws.toNat := by
  match df with
  | [] => simp at hw
  | r0 :: rest =>
    have h0 : r0.window_size = ws := hws r0 (by simp)
    have hsh := rotate_slice_shape rot hrot stack r0.angle r0.x r0.y r0.x_offset
      r0.y_offset ws r0.slice_width hws0
    simp only [rotate_slices, List.map_cons, np_dstack, from_product_table,
      hsh.1, hsh.2, h0, List.length_cons, List.length_map, Int.toNat_natCast]
    exact triple_filter_map _ _ _ c w hc (by simpa using hw) ws.toNat

/-- Witness for rotate_slices_radial_positions: two records with
window_size 1 over a one-channel stack give radial positions [0] for
window 1, channel 0. -/
theorem rotate_slices_radial_positions_witness :
    (∀ r ∈ dfW, r.window_size = 1) ∧
    (((rotate_slices rotId3 stX dfW).filter
        (fun row => row.2.1 == 0 && row.2.2.1 == 1)).map (fun row => row.1)) =
      List.range (1 : ℤ).toNat :=
  ⟨by decide,
   rotate_slices_radial_positions rotId3 (fun _ _ => ⟨rfl, rfl, rfl⟩) stX dfW 1
     (by decide) (by decide) 0 1 (by decide) (by decide)⟩

/-- C9: every pixel whose label equals the label found at the sample
point itself is dropped by the combined mask, so it contributes to no
per-radius average in any channel. -/
theorem radial_profile_excludes_own_label (mask label_img : ℤ → ℤ → ℤ)
    (max_radius cy cx H W : ℤ) (hx0 : 0 ≤ cx) (hxW : cx < W)
    (hy0 : 0 ≤ cy) (hyH : cy < H) :
    ∀ p ∈ radial_profile_kept mask label_img max_radius cy cx H W,
      label_img p.1 p.2 ≠ label_img cy cx := by
  intro p hp heq
  have hkeep := (List.mem_filter.mp hp).2
  simp only [decide_eq_true_eq] at hkeep
  apply hkeep
  simp [nucleus_mask_val, heq]

/-- Witness for radial_profile_excludes_own_label: pixel (0, 0) is kept
for the sample point (1, 1) of labelW and its label differs from the
label 5 at the point itself. -/
theorem radial_profile_excludes_own_label_witness :
    (0, 0) ∈ radial_profile_kept maskW labelW 1 1 1 3 3 ∧ labelW 0 0 ≠ labelW 1 1 :=
  ⟨by with_unfolding_all decide,
   radial_profile_excludes_own_label maskW labelW 1 1 1 3 3 (by decide) (by decide)
     (by decide) (by decide) (0, 0) (by with_unfolding_all decide)⟩

end Laminator
